import Mathlib

/-!
Verification of the core of the wordle-solver-cli repository.

The JavaScript sources are shallowly embedded: words are lists of
characters, JS objects keyed by position indices become association
lists, JS Sets become first-occurrence-deduplicated lists, and the JS
numbers used by the entropy scoring become real numbers.  All call
sites of the solver pass words of the session's word length, so the
embedding does not model the behaviour of JS index accesses beyond a
word's end (which the repository never exercises).
-/

namespace WordleSolverCli

/-- Words are fixed-length sequences of letters. -/
abbrev Word := List Char

/-- Feedback patterns are strings over G, Y, X, one letter per position. -/
abbrev Pattern := List Char

/-- Helper for jsDedup, carrying the elements already emitted. -/
def jsDedupAux {α : Type} [DecidableEq α] (seen : List α) : List α → List α
  | [] => []
  | a :: as => if a ∈ seen then jsDedupAux seen as else a :: jsDedupAux (a :: seen) as

/-- First-occurrence de-duplication of a list: the element order in which a
JS Set built from the list iterates. -/
def jsDedup {α : Type} [DecidableEq α] (l : List α) : List α := jsDedupAux [] l

theorem mem_jsDedupAux {α : Type} [DecidableEq α] (seen l : List α) (a : α) :
    a ∈ jsDedupAux seen l ↔ a ∈ l ∧ a ∉ seen := by
  induction l generalizing seen with
  | nil => simp [jsDedupAux]
  | cons b bs ih =>
    by_cases hb : b ∈ seen
    · rw [jsDedupAux, if_pos hb, ih]
      constructor
      · rintro ⟨h1, h2⟩; exact ⟨List.mem_cons_of_mem _ h1, h2⟩
      · rintro ⟨h1, h2⟩
        rcases List.mem_cons.mp h1 with h1 | h1
        · exact absurd (h1 ▸ hb) h2
        · exact ⟨h1, h2⟩
    · rw [jsDedupAux, if_neg hb]
      by_cases hab : a = b
      · subst hab
        simp [List.mem_cons, hb]
      · simp only [List.mem_cons, hab, false_or]
        rw [ih]
        simp [List.mem_cons, hab]

theorem mem_jsDedup {α : Type} [DecidableEq α] (l : List α) (a : α) :
    a ∈ jsDedup l ↔ a ∈ l := by
  rw [jsDedup, mem_jsDedupAux]; simp

theorem nodup_jsDedupAux {α : Type} [DecidableEq α] (seen l : List α) :
    (jsDedupAux seen l).Nodup := by
  induction l generalizing seen with
  | nil => simp [jsDedupAux]
  | cons b bs ih =>
    by_cases hb : b ∈ seen
    · rw [jsDedupAux, if_pos hb]; exact ih seen
    · rw [jsDedupAux, if_neg hb]
      refine List.nodup_cons.mpr ⟨?_, ih (b :: seen)⟩
      intro hmem
      exact ((mem_jsDedupAux _ _ _).mp hmem).2 (List.mem_cons_self b seen)

theorem nodup_jsDedup {α : Type} [DecidableEq α] (l : List α) : (jsDedup l).Nodup :=
  nodup_jsDedupAux [] l

theorem count_jsDedup {α : Type} [DecidableEq α] (l : List α) (a : α) :
    (jsDedup l).count a = if a ∈ l then 1 else 0 := by
  by_cases h : a ∈ l
  · rw [if_pos h]
    exact List.count_eq_one_of_mem (nodup_jsDedup l) ((mem_jsDedup l a).mpr h)
  · rw [if_neg h]
    exact List.count_eq_zero.mpr (fun hm => h ((mem_jsDedup l a).mp hm))

theorem jsDedupAux_eq_self {α : Type} [DecidableEq α] (seen l : List α)
    (hl : l.Nodup) (hd : ∀ a ∈ l, a ∉ seen) : jsDedupAux seen l = l := by
  induction l generalizing seen with
  | nil => simp [jsDedupAux]
  | cons b bs ih =>
    rw [jsDedupAux, if_neg (hd b (List.mem_cons_self b bs))]
    rcases List.nodup_cons.mp hl with ⟨hb, hbs⟩
    rw [ih (b :: seen) hbs]
    intro a ha
    simp only [List.mem_cons, not_or]
    exact ⟨fun hab => hb (hab ▸ ha), hd a (List.mem_cons_of_mem _ ha)⟩

theorem jsDedup_eq_self {α : Type} [DecidableEq α] (l : List α) (hl : l.Nodup) :
    jsDedup l = l :=
  jsDedupAux_eq_self [] l hl (by simp)

/-! ## The constraint filter (findPossibleWords, src/unnamed/part_001)

greenLetters is the position-to-letter lock object, yellowLetters the
position-to-letter-list exclusion object, greyLetters the excluded
letter array; a JS object keyed by indices becomes an association list. -/

/-- Letters confirmed present by the feedback: every green lock value and
every letter of every yellow entry (with multiplicity, as the source's
letterCounts map accumulates them). -/
def confirmedLetters (greenLetters : List (Nat × Char))
    (yellowLetters : List (Nat × List Char)) : List Char :=
  greenLetters.map Prod.snd ++ (yellowLetters.map Prod.snd).flatten

/-- Number of confirmed occurrences of a letter: green locks holding it
plus yellow-entry occurrences of it (the source's letterCounts value). -/
def confirmedCount (greenLetters : List (Nat × Char))
    (yellowLetters : List (Nat × List Char)) (c : Char) : Nat :=
  (confirmedLetters greenLetters yellowLetters).count c

/-- The per-word predicate of findPossibleWords in src/unnamed/part_001:
green positions must match, yellow letters must be present but not at
their excluded positions, unconfirmed grey letters must be absent, and a
grey letter that is also confirmed must not occur more often than its
confirmed count. -/
def wordMatches (greenLetters : List (Nat × Char))
    (yellowLetters : List (Nat × List Char)) (greyLetters : List Char)
    (word : Word) : Bool :=
  let uniqueGreyLetters := jsDedup greyLetters
  let confirmed := confirmedLetters greenLetters yellowLetters
  let trueGreyLetters := uniqueGreyLetters.filter (fun c => decide (c ∉ confirmed))
  greenLetters.all (fun p => decide (word.get? p.1 = some p.2)) &&
  yellowLetters.all (fun p =>
    (match word.get? p.1 with
     | some ch => decide (ch ∉ p.2)
     | none => true) &&
    p.2.all (fun c => decide (c ∈ word))) &&
  trueGreyLetters.all (fun c => decide (c ∉ word)) &&
  uniqueGreyLetters.all (fun c =>
    if c ∈ confirmed
    then decide (word.count c ≤ confirmedCount greenLetters yellowLetters c)
    else true)

/-- findPossibleWords of src/unnamed/part_001, with the session word list
passed explicitly. -/
def findPossibleWords (wordList : List Word) (greenLetters : List (Nat × Char))
    (yellowLetters : List (Nat × List Char)) (greyLetters : List Char) : List Word :=
  wordList.filter (wordMatches greenLetters yellowLetters greyLetters)

theorem band_iff {a b : Bool} : (a && b) = true ↔ a = true ∧ b = true := by
  simp

/-- Propositional characterisation of the filter predicate. -/
theorem wordMatches_iff (greenLetters : List (Nat × Char))
    (yellowLetters : List (Nat × List Char)) (greyLetters : List Char) (word : Word) :
    wordMatches greenLetters yellowLetters greyLetters word = true ↔
      (∀ p ∈ greenLetters, word.get? p.1 = some p.2) ∧
      (∀ p ∈ yellowLetters,
        (∀ ch ∈ p.2, word.get? p.1 ≠ some ch) ∧ (∀ c ∈ p.2, c ∈ word)) ∧
      (∀ c ∈ greyLetters, c ∉ confirmedLetters greenLetters yellowLetters → c ∉ word) ∧
      (∀ c ∈ greyLetters, c ∈ confirmedLetters greenLetters yellowLetters →
        word.count c ≤ confirmedCount greenLetters yellowLetters c) := by
  unfold wordMatches
  simp only [Bool.and_eq_true]
  constructor
  · rintro ⟨⟨⟨hg, hy⟩, htg⟩, hm⟩
    refine ⟨?_, ?_, ?_, ?_⟩
    · intro p hp
      have := List.all_eq_true.mp hg p hp
      exact of_decide_eq_true this
    · intro p hp
      rcases band_iff.mp (List.all_eq_true.mp hy p hp) with ⟨h1, h2⟩
      constructor
      · intro ch hch heq
        rw [heq] at h1
        exact (of_decide_eq_true h1) hch
      · intro c hc
        exact of_decide_eq_true (List.all_eq_true.mp h2 c hc)
    · intro c hc hnc
      have hmem : c ∈ (jsDedup greyLetters).filter
          (fun c => decide (c ∉ confirmedLetters greenLetters yellowLetters)) :=
        List.mem_filter.mpr ⟨(mem_jsDedup _ _).mpr hc, decide_eq_true hnc⟩
      exact of_decide_eq_true (List.all_eq_true.mp htg c hmem)
    · intro c hc hcc
      have := List.all_eq_true.mp hm c ((mem_jsDedup _ _).mpr hc)
      rw [if_pos hcc] at this
      exact of_decide_eq_true this
  · rintro ⟨hg, hy, htg, hm⟩
    refine ⟨⟨⟨?_, ?_⟩, ?_⟩, ?_⟩
    · exact List.all_eq_true.mpr (fun p hp => decide_eq_true (hg p hp))
    · refine List.all_eq_true.mpr (fun p hp => band_iff.mpr ⟨?_, ?_⟩)
      · cases hw : word.get? p.1 with
        | none => rfl
        | some ch =>
          exact decide_eq_true (fun hch => (hy p hp).1 ch hch hw)
      · exact List.all_eq_true.mpr (fun c hc => decide_eq_true ((hy p hp).2 c hc))
    · refine List.all_eq_true.mpr (fun c hcmem => ?_)
      rcases List.mem_filter.mp hcmem with ⟨hc1, hc2⟩
      exact decide_eq_true
        (htg c ((mem_jsDedup _ _).mp hc1) (of_decide_eq_true hc2))
    · refine List.all_eq_true.mpr (fun c hcmem => ?_)
      by_cases hcc : c ∈ confirmedLetters greenLetters yellowLetters
      · rw [if_pos hcc]
        exact decide_eq_true (hm c ((mem_jsDedup _ _).mp hcmem) hcc)
      · rw [if_neg hcc]

/-- C8: re-applying findPossibleWords with the same constraints to its own
output yields exactly the same word list (the filter is a fixed point under
re-application). -/
theorem C8_filter_idempotent (wordList : List Word) (greenLetters : List (Nat × Char))
    (yellowLetters : List (Nat × List Char)) (greyLetters : List Char) :
    findPossibleWords (findPossibleWords wordList greenLetters yellowLetters greyLetters)
        greenLetters yellowLetters greyLetters
      = findPossibleWords wordList greenLetters yellowLetters greyLetters := by
  unfold findPossibleWords
  rw [List.filter_filter]
  simp

/-- C1 counterexample: with two position-exclusion entries for e and e in the
excluded list, confirmedCount e is 2, yet the word bench with a single e is
retained by the filter, while the claim requires a word with fewer
occurrences than confirmedCount to be rejected. -/
theorem C1_counterexample :
    'e' ∈ (['e'] : List Char)
    ∧ confirmedCount [] [(2, ['e']), (3, ['e'])] 'e' = 2
    ∧ (['b', 'e', 'n', 'c', 'h'] : Word).count 'e' = 1
    ∧ findPossibleWords [['b', 'e', 'n', 'c', 'h']] [] [(2, ['e']), (3, ['e'])] ['e']
        = [['b', 'e', 'n', 'c', 'h']] :=
  ⟨by decide, by decide, by decide, by decide⟩

/-- C1 (amended): for a letter in the excluded list that is also confirmed,
a retained word has at most confirmedCount occurrences of it (words with
fewer occurrences are not rejected by this rule); for an excluded letter
with no confirmed occurrence a retained word does not contain it at all;
and on the dictionary sheet, shelf, speed with s locked at position 0, one
position-exclusion entry for e and excluded letter e, the filter retains
exactly shelf, the only word with exactly one e, rejecting sheet. -/
theorem C1_amended_bound :
    (∀ (wordList : List Word) (greenLetters : List (Nat × Char))
        (yellowLetters : List (Nat × List Char)) (greyLetters : List Char)
        (w : Word) (c : Char),
        c ∈ greyLetters → c ∈ confirmedLetters greenLetters yellowLetters →
        w ∈ findPossibleWords wordList greenLetters yellowLetters greyLetters →
        w.count c ≤ confirmedCount greenLetters yellowLetters c)
    ∧ (∀ (wordList : List Word) (greenLetters : List (Nat × Char))
        (yellowLetters : List (Nat × List Char)) (greyLetters : List Char)
        (w : Word) (c : Char),
        c ∈ greyLetters → c ∉ confirmedLetters greenLetters yellowLetters →
        w ∈ findPossibleWords wordList greenLetters yellowLetters greyLetters →
        c ∉ w)
    ∧ findPossibleWords
        [['s','h','e','e','t'], ['s','h','e','l','f'], ['s','p','e','e','d']]
        [(0, 's')] [(1, ['e'])] ['e']
        = [['s','h','e','l','f']] := by
  refine ⟨?_, ?_, by decide⟩
  · intro wordList g y gr w c hc hcc hw
    rcases List.mem_filter.mp hw with ⟨_, hmatch⟩
    exact ((wordMatches_iff g y gr w).mp hmatch).2.2.2 c hc hcc
  · intro wordList g y gr w c hc hcc hw
    rcases List.mem_filter.mp hw with ⟨_, hmatch⟩
    exact ((wordMatches_iff g y gr w).mp hmatch).2.2.1 c hc hcc

/-- C1 witness: the amended bound instantiated at the bench counterexample
input. -/
theorem C1_witness :
    'e' ∈ (['e'] : List Char)
    ∧ (['b', 'e', 'n', 'c', 'h'] : Word).count 'e'
        ≤ confirmedCount [] [(2, ['e']), (3, ['e'])] 'e' :=
  ⟨by decide,
    C1_amended_bound.1 [['b', 'e', 'n', 'c', 'h']] [] [(2, ['e']), (3, ['e'])] ['e']
      ['b', 'e', 'n', 'c', 'h'] 'e' (by decide) (by decide) (by decide)⟩

/-- Filtering with a pointwise-stronger predicate keeps at most as many
elements. -/
theorem length_filter_le_of_imp {α : Type} (l : List α) (p q : α → Bool)
    (h : ∀ a ∈ l, p a = true → q a = true) :
    (l.filter p).length ≤ (l.filter q).length := by
  induction l with
  | nil => simp
  | cons a as ih =>
    have ih2 := ih (fun b hb hpb => h b (List.mem_cons_of_mem _ hb) hpb)
    by_cases hp : p a = true
    · rw [List.filter_cons_of_pos hp, List.filter_cons_of_pos (h a (List.mem_cons_self _ _) hp)]
      simpa using Nat.succ_le_succ ih2
    · rw [List.filter_cons_of_neg (by simpa using hp)]
      by_cases hq : q a = true
      · rw [List.filter_cons_of_pos hq]
        exact ih2.trans (Nat.le_succ _)
      · rw [List.filter_cons_of_neg (by simpa using hq)]
        exact ih2

/-- Appending one more excluded letter strengthens the filter predicate. -/
theorem wordMatches_grey_append (g : List (Nat × Char)) (y : List (Nat × List Char))
    (gr : List Char) (c : Char) (w : Word)
    (h : wordMatches g y (gr ++ [c]) w = true) : wordMatches g y gr w = true := by
  rw [wordMatches_iff] at h ⊢
  obtain ⟨h1, h2, h3, h4⟩ := h
  exact ⟨h1, h2,
    fun x hx hnc => h3 x (List.mem_append_left _ hx) hnc,
    fun x hx hcc => h4 x (List.mem_append_left _ hx) hcc⟩

/-- Appending a position lock whose letter is not excluded strengthens the
filter predicate. -/
theorem wordMatches_green_append (g : List (Nat × Char)) (y : List (Nat × List Char))
    (gr : List Char) (n : Nat) (c : Char) (w : Word) (hc : c ∉ gr)
    (h : wordMatches (g ++ [(n, c)]) y gr w = true) : wordMatches g y gr w = true := by
  rw [wordMatches_iff] at h ⊢
  obtain ⟨h1, h2, h3, h4⟩ := h
  have hconf : ∀ x : Char, x ∈ confirmedLetters g y →
      x ∈ confirmedLetters (g ++ [(n, c)]) y := by
    intro x hx
    simp only [confirmedLetters, List.map_append, List.mem_append] at hx ⊢
    tauto
  have hconf2 : ∀ x : Char, x ≠ c → x ∈ confirmedLetters (g ++ [(n, c)]) y →
      x ∈ confirmedLetters g y := by
    intro x hne hx
    simp only [confirmedLetters, List.map_append, List.map_cons, List.map_nil,
      List.mem_append, List.mem_cons, List.not_mem_nil, or_false] at hx ⊢
    tauto
  have hcount : ∀ x : Char, x ≠ c →
      confirmedCount (g ++ [(n, c)]) y x = confirmedCount g y x := by
    intro x hne
    simp only [confirmedCount, confirmedLetters, List.map_append, List.map_cons,
      List.map_nil, List.count_append]
    have : ([c] : List Char).count x = 0 := by
      simp [List.count_singleton, hne.symm]
    omega
  refine ⟨fun p hp => h1 p (List.mem_append_left _ hp), h2, ?_, ?_⟩
  · intro x hx hnc
    have hne : x ≠ c := fun he => hc (he ▸ hx)
    exact h3 x hx (fun hmem => hnc (hconf2 x hne hmem))
  · intro x hx hcc
    have hne : x ≠ c := fun he => hc (he ▸ hx)
    have := h4 x hx (hconf x hcc)
    rwa [hcount x hne] at this

/-- Adding one letter to a position-exclusion entry, when that letter is not
excluded, strengthens the filter predicate. -/
theorem wordMatches_yellow_extend (g : List (Nat × Char)) (y₁ y₂ : List (Nat × List Char))
    (n : Nat) (ls : List Char) (gr : List Char) (c : Char) (w : Word) (hc : c ∉ gr)
    (h : wordMatches g (y₁ ++ (n, ls ++ [c]) :: y₂) gr w = true) :
    wordMatches g (y₁ ++ (n, ls) :: y₂) gr w = true := by
  rw [wordMatches_iff] at h ⊢
  obtain ⟨h1, h2, h3, h4⟩ := h
  have hconf : ∀ x : Char, x ∈ confirmedLetters g (y₁ ++ (n, ls) :: y₂) →
      x ∈ confirmedLetters g (y₁ ++ (n, ls ++ [c]) :: y₂) := by
    intro x hx
    simp only [confirmedLetters, List.map_append, List.map_cons, List.flatten_append,
      List.flatten_cons, List.mem_append, List.mem_cons] at hx ⊢
    tauto
  have hconf2 : ∀ x : Char, x ≠ c → x ∈ confirmedLetters g (y₁ ++ (n, ls ++ [c]) :: y₂) →
      x ∈ confirmedLetters g (y₁ ++ (n, ls) :: y₂) := by
    intro x hne hx
    simp only [confirmedLetters, List.map_append, List.map_cons, List.flatten_append,
      List.flatten_cons, List.mem_append, List.mem_cons, List.not_mem_nil, or_false,
      List.mem_singleton] at hx ⊢
    tauto
  have hcount : ∀ x : Char, x ≠ c →
      confirmedCount g (y₁ ++ (n, ls ++ [c]) :: y₂) x
        = confirmedCount g (y₁ ++ (n, ls) :: y₂) x := by
    intro x hne
    simp only [confirmedCount, confirmedLetters, List.map_append, List.map_cons,
      List.flatten_append, List.flatten_cons, List.count_append]
    have : ([c] : List Char).count x = 0 := by
      simp [List.count_singleton, hne.symm]
    omega
  refine ⟨h1, ?_, ?_, ?_⟩
  · intro p hp
    rcases List.mem_append.mp hp with hp1 | hp1
    · exact h2 p (List.mem_append_left _ hp1)
    · rcases List.mem_cons.mp hp1 with hp2 | hp2
      · subst hp2
        have hmid := h2 (n, ls ++ [c]) (List.mem_append_right _ (List.mem_cons_self _ _))
        exact ⟨fun ch hch => hmid.1 ch (List.mem_append_left _ hch),
               fun x hx => hmid.2 x (List.mem_append_left _ hx)⟩
      · exact h2 p (List.mem_append_right _ (List.mem_cons_of_mem _ hp2))
  · intro x hx hnc
    have hne : x ≠ c := fun he => hc (he ▸ hx)
    exact h3 x hx (fun hmem => hnc (hconf2 x hne hmem))
  · intro x hx hcc
    have hne : x ≠ c := fun he => hc (he ▸ hx)
    have := h4 x hx (hconf x hcc)
    rwa [hcount x hne] at this

/-- C2 counterexample: with the one-word dictionary apple and excluded
letter a, the filter returns no word; adding the position lock a-at-0 makes
the filter return apple, so adding a constraint increased the candidate set
from 0 to 1 words. -/
theorem C2_counterexample :
    (findPossibleWords [['a','p','p','l','e']] [] [] ['a']).length = 0
    ∧ (findPossibleWords [['a','p','p','l','e']] [(0, 'a')] [] ['a']).length = 1
    ∧ (0 : Nat) < 1 :=
  ⟨by decide, by decide, by decide⟩

/-- C2 (amended): adding one more excluded letter never increases the
candidate set's size, and adding one more position lock or one more letter
in a position-exclusion entry never increases it provided the added letter
is not among the excluded letters; when it is, the addition can enlarge the
candidate set, because the excluded letter's interpretation switches from
absent to at-most-its-confirmed-count. -/
theorem C2_amended_monotone (wordList : List Word) (greenLetters : List (Nat × Char))
    (yellowLetters : List (Nat × List Char)) (greyLetters : List Char) :
    (∀ c, (findPossibleWords wordList greenLetters yellowLetters (greyLetters ++ [c])).length
        ≤ (findPossibleWords wordList greenLetters yellowLetters greyLetters).length)
    ∧ (∀ n c, c ∉ greyLetters →
        (findPossibleWords wordList (greenLetters ++ [(n, c)]) yellowLetters greyLetters).length
        ≤ (findPossibleWords wordList greenLetters yellowLetters greyLetters).length)
    ∧ (∀ (y₁ y₂ : List (Nat × List Char)) n ls c, c ∉ greyLetters →
        (findPossibleWords wordList greenLetters (y₁ ++ (n, ls ++ [c]) :: y₂) greyLetters).length
        ≤ (findPossibleWords wordList greenLetters (y₁ ++ (n, ls) :: y₂) greyLetters).length) := by
  refine ⟨?_, ?_, ?_⟩
  · intro c
    exact length_filter_le_of_imp wordList _ _
      (fun w _ hw => wordMatches_grey_append greenLetters yellowLetters greyLetters c w hw)
  · intro n c hc
    exact length_filter_le_of_imp wordList _ _
      (fun w _ hw => wordMatches_green_append greenLetters yellowLetters greyLetters n c w hc hw)
  · intro y₁ y₂ n ls c hc
    exact length_filter_le_of_imp wordList _ _
      (fun w _ hw => wordMatches_yellow_extend greenLetters y₁ y₂ n ls greyLetters c w hc hw)

/-- C2 witness: the amended monotonicity instantiated on a concrete
dictionary and constraint set. -/
theorem C2_witness :
    'z' ∉ (['a'] : List Char)
    ∧ (findPossibleWords [['a','p','p','l','e']] [] [] (['a'] ++ ['b'])).length
        ≤ (findPossibleWords [['a','p','p','l','e']] [] [] ['a']).length
    ∧ (findPossibleWords [['a','p','p','l','e']] ([] ++ [(0, 'z')]) [] ['a']).length
        ≤ (findPossibleWords [['a','p','p','l','e']] [] [] ['a']).length
    ∧ (findPossibleWords [['a','p','p','l','e']] [] ([] ++ (1, ['p'] ++ ['z']) :: []) ['a']).length
        ≤ (findPossibleWords [['a','p','p','l','e']] [] ([] ++ (1, ['p']) :: []) ['a']).length :=
  ⟨by decide,
    (C2_amended_monotone [['a','p','p','l','e']] [] [] ['a']).1 'b',
    (C2_amended_monotone [['a','p','p','l','e']] [] [] ['a']).2.1 0 'z' (by decide),
    (C2_amended_monotone [['a','p','p','l','e']] [] [] ['a']).2.2 [] [] 1 ['p'] 'z' (by decide)⟩

/-! ## Feedback simulation (simulateFeedback, src/unnamed/part_001)

Consumed slots are represented as none; the second pass consumes from the
whole solution-slot array exactly as the source's indexOf-then-null does.
All repository call sites pass a guess and a solution of the session's
word length, so the embedding works over the aligned character lists. -/

/-- Null out the first unconsumed occurrence of c among the solution slots
(the source's indexOf followed by a null assignment); none when absent. -/
def consumeFirst : List (Option Char) → Char → Option (List (Option Char))
  | [], _ => none
  | x :: xs, c =>
    if x = some c then some (none :: xs) else (consumeFirst xs c).map (x :: ·)

/-- First pass of simulateFeedback: every exact positional match consumes
the letter from both the guess and the solution. -/
def pass1 : List Char → List Char → List (Option Char) × List (Option Char)
  | g :: gs, s :: ss =>
    let r := pass1 gs ss
    if g = s then (none :: r.1, none :: r.2) else (some g :: r.1, some s :: r.2)
  | _, _ => ([], [])

/-- Second pass of simulateFeedback: a consumed guess slot reads G; an
unconsumed guess letter reads Y if it can still consume an occurrence from
the solution slots, otherwise X. -/
def pass2 : List (Option Char) → List (Option Char) → List Char
  | [], _ => []
  | none :: gs, ss => 'G' :: pass2 gs ss
  | some g :: gs, ss =>
    match consumeFirst ss g with
    | some ss2 => 'Y' :: pass2 gs ss2
    | none => 'X' :: pass2 gs ss

/-- simulateFeedback of src/unnamed/part_001: the feedback pattern the guess
would receive if the solution were the true answer. -/
def simulateFeedback (guess solution : Word) : Pattern :=
  pass2 (pass1 guess solution).1 (pass1 guess solution).2

/-- C4: simulating the guess sheen against the solution geese yields the
pattern YXGYX: position 2 is exact, positions 0 and 3 are
present-elsewhere, positions 1 and 4 are absent, and the number of
non-absent marks for the letter e does not exceed the number of e
occurrences in geese. -/
theorem C4_feedback_sheen_geese :
    simulateFeedback ['s','h','e','e','n'] ['g','e','e','s','e'] = ['Y','X','G','Y','X']
    ∧ (simulateFeedback ['s','h','e','e','n'] ['g','e','e','s','e']).get? 2 = some 'G'
    ∧ (simulateFeedback ['s','h','e','e','n'] ['g','e','e','s','e']).get? 0 = some 'Y'
    ∧ (simulateFeedback ['s','h','e','e','n'] ['g','e','e','s','e']).get? 3 = some 'Y'
    ∧ (simulateFeedback ['s','h','e','e','n'] ['g','e','e','s','e']).get? 1 = some 'X'
    ∧ (simulateFeedback ['s','h','e','e','n'] ['g','e','e','s','e']).get? 4 = some 'X'
    ∧ ((simulateFeedback ['s','h','e','e','n'] ['g','e','e','s','e']).zip
          ['s','h','e','e','n']).countP (fun p => decide (p.1 ≠ 'X' ∧ p.2 = 'e'))
        ≤ (['g','e','e','s','e'] : Word).count 'e' := by
  decide

/-! ## Partition (entropy) scoring (calculatePartitionScore, src/unnamed/part_001) -/

/-- calculatePartitionScore of src/unnamed/part_001: the patterns map holds
the multiset of simulated feedback patterns over the candidate words, and
the score subtracts p * log2 p for each distinct observed pattern. -/
noncomputable def calculatePartitionScore (guess : Word) (possibleWords : List Word) : ℝ :=
  -(((jsDedup (possibleWords.map (simulateFeedback guess))).map (fun p =>
      (((possibleWords.map (simulateFeedback guess)).count p : ℝ)
          / (possibleWords.length : ℝ))
        * Real.logb 2
          (((possibleWords.map (simulateFeedback guess)).count p : ℝ)
            / (possibleWords.length : ℝ)))).sum)

/-- Spec-side definition, following the specification's words: the Shannon
entropy of the distribution of a list of outcomes, summed over the set of
observed outcomes, where the probability of an outcome is the fraction of
the list producing it. -/
noncomputable def shannonEntropy (outcomes : List Pattern) : ℝ :=
  -(∑ k in outcomes.toFinset,
      ((outcomes.count k : ℝ) / (outcomes.length : ℝ))
        * Real.logb 2 ((outcomes.count k : ℝ) / (outcomes.length : ℝ)))

theorem count_eq_one_of_mem_nodup {α : Type} [BEq α] [LawfulBEq α] {a : α} {l : List α}
    (d : l.Nodup) (h : a ∈ l) : l.count a = 1 := by
  induction l with
  | nil => simp at h
  | cons b t ih =>
    rcases List.nodup_cons.mp d with ⟨hb, ht⟩
    rcases List.mem_cons.mp h with rfl | h2
    · rw [List.count_cons_self, List.count_eq_zero.mpr hb]
    · have hab : a ≠ b := fun he => hb (he ▸ h2)
      rw [List.count_cons_of_ne hab, ih ht h2]

theorem toFinset_jsDedup {α : Type} [DecidableEq α] (l : List α) :
    (jsDedup l).toFinset = l.toFinset := by
  ext a
  simp [List.mem_toFinset, mem_jsDedup]

/-- C5: the partition score is the Shannon entropy of the feedback-pattern
distribution of the guess over the candidate set; it is 0 whenever the
whole candidate set produces a single pattern (in particular for a
singleton candidate set), and equals log2 N when each of the N candidates
produces a distinct pattern. -/
theorem C5_partition_entropy (guess : Word) (C : List Word) (h : C ≠ []) :
    calculatePartitionScore guess C = shannonEntropy (C.map (simulateFeedback guess))
    ∧ ((∀ s₁ ∈ C, ∀ s₂ ∈ C, simulateFeedback guess s₁ = simulateFeedback guess s₂) →
        calculatePartitionScore guess C = 0)
    ∧ (C.length = 1 → calculatePartitionScore guess C = 0)
    ∧ ((C.map (simulateFeedback guess)).Nodup →
        calculatePartitionScore guess C = Real.logb 2 (C.length : ℝ)) := by
  have hlen0 : C.length ≠ 0 := fun hl => h (List.length_eq_zero.mp hl)
  have hN : (C.length : ℝ) ≠ 0 := Nat.cast_ne_zero.mpr hlen0
  have hsame : (∀ s₁ ∈ C, ∀ s₂ ∈ C, simulateFeedback guess s₁ = simulateFeedback guess s₂) →
      calculatePartitionScore guess C = 0 := by
    intro hall
    unfold calculatePartitionScore
    rw [List.sum_eq_zero, neg_zero]
    intro x hx
    rcases List.mem_map.mp hx with ⟨p, hp, rfl⟩
    have hp2 : p ∈ C.map (simulateFeedback guess) := (mem_jsDedup _ _).mp hp
    rcases List.mem_map.mp hp2 with ⟨s₀, hs₀, rfl⟩
    have hcount : (C.map (simulateFeedback guess)).count (simulateFeedback guess s₀)
        = (C.map (simulateFeedback guess)).length := by
      rw [List.count_eq_length]
      intro b hb
      rcases List.mem_map.mp hb with ⟨s₂, hs₂, rfl⟩
      exact hall s₀ hs₀ s₂ hs₂
    rw [hcount, List.length_map, div_self hN, Real.logb_one, mul_zero]
  refine ⟨?_, hsame, ?_, ?_⟩
  · unfold calculatePartitionScore shannonEntropy
    rw [← toFinset_jsDedup (C.map (simulateFeedback guess)),
      List.sum_toFinset _ (nodup_jsDedup (C.map (simulateFeedback guess))),
      List.length_map]
  · intro h1
    rcases List.length_eq_one.mp h1 with ⟨a, rfl⟩
    refine hsame ?_
    intro s₁ hs₁ s₂ hs₂
    rw [List.mem_singleton.mp hs₁, List.mem_singleton.mp hs₂]
  · intro hnd
    unfold calculatePartitionScore
    rw [jsDedup_eq_self _ hnd]
    rw [List.sum_eq_card_nsmul _ (((1 : ℝ) / (C.length : ℝ))
      * Real.logb 2 ((1 : ℝ) / (C.length : ℝ)))]
    · rw [List.length_map, List.length_map, nsmul_eq_mul, one_div, Real.logb_inv]
      field_simp
    · intro x hx
      rcases List.mem_map.mp hx with ⟨p, hp, rfl⟩
      rw [count_eq_one_of_mem_nodup hnd hp]
      norm_num

/-- C5 witness: a singleton candidate set yields partition score 0. -/
theorem C5_witness :
    ([['a']] : List Word) ≠ [] ∧ calculatePartitionScore ['a'] [['a']] = 0 :=
  ⟨by decide, (C5_partition_entropy ['a'] [['a']] (by decide)).2.2.1 rfl⟩

/-! ## Stable descending sort

The JS Array.prototype.sort with comparator (a, b) => b.score - a.score is
a stable descending sort; a stable sort's output is uniquely determined by
the comparator, so it is modelled by stable insertion sort. -/

def insertByDesc {α β : Type} [LinearOrder β] (f : α → β) (x : α) : List α → List α
  | [] => [x]
  | y :: ys => if f y ≤ f x then x :: y :: ys else y :: insertByDesc f x ys

def sortByDesc {α β : Type} [LinearOrder β] (f : α → β) (l : List α) : List α :=
  l.foldr (insertByDesc f) []

theorem perm_insertByDesc {α β : Type} [LinearOrder β] (f : α → β) (x : α) (l : List α) :
    List.Perm (insertByDesc f x l) (x :: l) := by
  induction l with
  | nil => exact List.Perm.refl _
  | cons y ys ih =>
    rw [insertByDesc]
    by_cases h : f y ≤ f x
    · rw [if_pos h]
    · rw [if_neg h]
      exact (List.Perm.cons y ih).trans (List.Perm.swap x y ys)

theorem perm_sortByDesc {α β : Type} [LinearOrder β] (f : α → β) (l : List α) :
    List.Perm (sortByDesc f l) l := by
  induction l with
  | nil => exact List.Perm.refl _
  | cons y ys ih =>
    exact (perm_insertByDesc f y (sortByDesc f ys)).trans (List.Perm.cons y ih)

theorem mem_insertByDesc {α β : Type} [LinearOrder β] (f : α → β) (x a : α) (l : List α) :
    a ∈ insertByDesc f x l ↔ a = x ∨ a ∈ l := by
  rw [(perm_insertByDesc f x l).mem_iff, List.mem_cons]

theorem pairwise_insertByDesc {α β : Type} [LinearOrder β] (f : α → β) (x : α) (l : List α)
    (h : l.Pairwise (fun a b => f b ≤ f a)) :
    (insertByDesc f x l).Pairwise (fun a b => f b ≤ f a) := by
  induction l with
  | nil => simp [insertByDesc]
  | cons y ys ih =>
    rcases List.pairwise_cons.mp h with ⟨hy, hys⟩
    rw [insertByDesc]
    by_cases hle : f y ≤ f x
    · rw [if_pos hle]
      refine List.pairwise_cons.mpr ⟨?_, h⟩
      intro b hb
      rcases List.mem_cons.mp hb with rfl | hb2
      · exact hle
      · exact (hy b hb2).trans hle
    · rw [if_neg hle]
      refine List.pairwise_cons.mpr ⟨?_, ih hys⟩
      intro b hb
      rcases (mem_insertByDesc f x b ys).mp hb with rfl | hb2
      · exact le_of_lt (lt_of_not_le hle)
      · exact hy b hb2

theorem pairwise_sortByDesc {α β : Type} [LinearOrder β] (f : α → β) (l : List α) :
    (sortByDesc f l).Pairwise (fun a b => f b ≤ f a) := by
  induction l with
  | nil => simp [sortByDesc]
  | cons y ys ih => exact pairwise_insertByDesc f y _ ih

theorem filter_insertByDesc_pos {α β : Type} [LinearOrder β] (f : α → β) (x : α)
    (l : List α) (s : β) (hx : f x = s) :
    (insertByDesc f x l).filter (fun a => decide (f a = s))
      = x :: l.filter (fun a => decide (f a = s)) := by
  induction l with
  | nil => simp [insertByDesc, hx]
  | cons y ys ih =>
    rw [insertByDesc]
    by_cases hle : f y ≤ f x
    · rw [if_pos hle]
      simp only [List.filter_cons]
      simp [hx]
    · rw [if_neg hle]
      have hy : ¬ (f y = s) := fun he => hle (le_of_eq ((hx.trans he.symm).symm))
      simp only [List.filter_cons]
      simp [hy, ih]

theorem filter_insertByDesc_neg {α β : Type} [LinearOrder β] (f : α → β) (x : α)
    (l : List α) (s : β) (hx : ¬ (f x = s)) :
    (insertByDesc f x l).filter (fun a => decide (f a = s))
      = l.filter (fun a => decide (f a = s)) := by
  induction l with
  | nil => simp [insertByDesc, hx]
  | cons y ys ih =>
    rw [insertByDesc]
    by_cases hle : f y ≤ f x
    · rw [if_pos hle]
      simp only [List.filter_cons]
      simp [hx]
    · rw [if_neg hle]
      simp only [List.filter_cons]
      by_cases hys : f y = s
      · simp [hys, ih]
      · simp [hys, ih]

/-- Stability of the sort: the subsequence of entries with any fixed sort
key is exactly the input's subsequence with that key, in input order. -/
theorem filter_sortByDesc {α β : Type} [LinearOrder β] (f : α → β) (l : List α) (s : β) :
    (sortByDesc f l).filter (fun a => decide (f a = s))
      = l.filter (fun a => decide (f a = s)) := by
  induction l with
  | nil => rfl
  | cons y ys ih =>
    show ((insertByDesc f y (sortByDesc f ys)).filter _) = _
    by_cases hy : f y = s
    · rw [filter_insertByDesc_pos f y _ s hy, ih]
      simp only [List.filter_cons]
      simp [hy]
    · rw [filter_insertByDesc_neg f y _ s hy, ih]
      simp only [List.filter_cons]
      simp [hy]

/-! ## The frequency-scoring ranker of src/wordleSolver.js -/

namespace V1

/-- One increment of the letterFrequency object of suggestGuesses
(src/wordleSolver.js), on an association list. -/
def bump : List (Char × Nat) → Char → List (Char × Nat)
  | [], c => [(c, 1)]
  | (d, n) :: f, c => if d = c then (d, n + 1) :: f else (d, n) :: bump f c

/-- letterFrequency of suggestGuesses (src/wordleSolver.js): each word
increments the counter of each of its unique letters once. -/
def letterFrequency (possibleWords : List Word) : List (Char × Nat) :=
  possibleWords.foldl (fun f w => (jsDedup w).foldl bump f) []

/-- Reading the frequency object; a missing letter reads 0 (the source only
ever reads letters of scored words, which are all present). -/
def freqLookup (f : List (Char × Nat)) (c : Char) : Nat :=
  ((f.find? (fun p => decide (p.1 = c))).map Prod.snd).getD 0

/-- suggestGuesses of src/wordleSolver.js: score each possible word by its
count of unique letters outside usedLetters times the uniqueLetters weight
10 plus the sum over its unique letters of the letter's frequency times the
letterFrequency weight 1, sort descending by score (stable), and return the
first numSuggestions entries. -/
def suggestGuesses (possibleWords : List Word) (usedLetters : List Char)
    (numSuggestions : Nat) : List (Word × Nat) :=
  if possibleWords.isEmpty then []
  else
    (sortByDesc Prod.snd (possibleWords.map (fun word =>
      (word,
        ((jsDedup word).filter (fun c => decide (c ∉ usedLetters))).length * 10
          + ((jsDedup word).map
              (fun c => freqLookup (letterFrequency possibleWords) c * 1)).sum)))).take
      numSuggestions

end V1

/-- Spec-side definition, following the specification's words: score equals
the number of the word's unique letters not in usedLetters times 10, plus
the sum over the word's unique letters of the number of candidate words
containing that letter times 1. -/
def specSolutionScore (possibleWords : List Word) (usedLetters : List Char)
    (w : Word) : Nat :=
  ((jsDedup w).filter (fun c => decide (c ∉ usedLetters))).length * 10
    + ((jsDedup w).map (fun c => possibleWords.countP (fun v => decide (c ∈ v)))).sum

theorem freqLookup_bump (f : List (Char × Nat)) (c d : Char) :
    V1.freqLookup (V1.bump f c) d = V1.freqLookup f d + if d = c then 1 else 0 := by
  induction f with
  | nil =>
    by_cases h : d = c
    · subst h; simp [V1.bump, V1.freqLookup]
    · simp [V1.bump, V1.freqLookup, h, Ne.symm h]
  | cons p f ih =>
    obtain ⟨e, n⟩ := p
    by_cases hec : e = c
    · subst hec
      by_cases hde : d = e
      · subst hde; simp [V1.bump, V1.freqLookup]
      · simp [V1.bump, V1.freqLookup, hde, Ne.symm hde]
    · by_cases hde : d = e
      · subst hde
        have hdc : ¬ (d = c) := hec
        simp [V1.bump, V1.freqLookup, hec, hdc]
      · simp only [V1.bump, if_neg hec]
        have hstep : ∀ g : List (Char × Nat),
            V1.freqLookup ((e, n) :: g) d = V1.freqLookup g d := by
          intro g
          simp [V1.freqLookup, List.find?_cons, Ne.symm hde]
        rw [hstep, hstep, ih]

theorem freqLookup_foldl_bump (l : List Char) (f : List (Char × Nat)) (d : Char) :
    V1.freqLookup (l.foldl V1.bump f) d = V1.freqLookup f d + l.count d := by
  induction l generalizing f with
  | nil => simp
  | cons c cs ih =>
    rw [List.foldl_cons, ih, freqLookup_bump, List.count_cons]
    by_cases h : d = c
    · subst h; simp; omega
    · simp [h, Ne.symm h]

theorem freqLookup_letterFrequency (possibleWords : List Word) (d : Char) :
    V1.freqLookup (V1.letterFrequency possibleWords) d
      = possibleWords.countP (fun v => decide (d ∈ v)) := by
  suffices hgen : ∀ f, V1.freqLookup
      (possibleWords.foldl (fun f w => (jsDedup w).foldl V1.bump f) f) d
      = V1.freqLookup f d + possibleWords.countP (fun v => decide (d ∈ v)) by
    have := hgen []
    simpa [V1.letterFrequency, V1.freqLookup] using this
  intro f
  induction possibleWords generalizing f with
  | nil => simp
  | cons w ws ih =>
    rw [List.foldl_cons, ih, freqLookup_foldl_bump, count_jsDedup, List.countP_cons]
    by_cases h : d ∈ w
    · simp [h]
      omega
    · simp [h]

/-- The source's per-word score coincides with the spec formula. -/
theorem v1Score_eq_spec (possibleWords : List Word) (usedLetters : List Char) (w : Word) :
    ((jsDedup w).filter (fun c => decide (c ∉ usedLetters))).length * 10
      + ((jsDedup w).map
          (fun c => V1.freqLookup (V1.letterFrequency possibleWords) c * 1)).sum
    = specSolutionScore possibleWords usedLetters w := by
  unfold specSolutionScore
  congr 1
  congr 1
  apply List.map_congr_left
  intro c _
  rw [freqLookup_letterFrequency, Nat.mul_one]

/-- C6: every suggestion of the simple solver's suggestGuesses carries the
score of the spec formula (fresh unique letters times 10 plus summed
candidate-set letter frequencies), and the returned list is the first
numSuggestions entries of the stable descending sort of the scored
dictionary, hence ordered descending by score with ties kept in dictionary
order. -/
theorem C6_solution_scores (possibleWords : List Word) (usedLetters : List Char)
    (numSuggestions : Nat) (h : possibleWords ≠ []) :
    (∀ p ∈ V1.suggestGuesses possibleWords usedLetters numSuggestions,
        p.2 = specSolutionScore possibleWords usedLetters p.1)
    ∧ (V1.suggestGuesses possibleWords usedLetters numSuggestions).Pairwise
        (fun a b => b.2 ≤ a.2)
    ∧ V1.suggestGuesses possibleWords usedLetters numSuggestions
        = (sortByDesc Prod.snd (possibleWords.map (fun w =>
            (w, specSolutionScore possibleWords usedLetters w)))).take numSuggestions
    ∧ (∀ s, (sortByDesc Prod.snd (possibleWords.map (fun w =>
          (w, specSolutionScore possibleWords usedLetters w)))).filter
            (fun p => decide (p.2 = s))
        = (possibleWords.map (fun w =>
            (w, specSolutionScore possibleWords usedLetters w))).filter
            (fun p => decide (p.2 = s))) := by
  have hmap : possibleWords.map (fun word =>
        (word,
          ((jsDedup word).filter (fun c => decide (c ∉ usedLetters))).length * 10
            + ((jsDedup word).map
                (fun c => V1.freqLookup (V1.letterFrequency possibleWords) c * 1)).sum))
      = possibleWords.map (fun w => (w, specSolutionScore possibleWords usedLetters w)) := by
    apply List.map_congr_left
    intro w _
    rw [v1Score_eq_spec]
  have hsg : V1.suggestGuesses possibleWords usedLetters numSuggestions
      = (sortByDesc Prod.snd (possibleWords.map (fun w =>
          (w, specSolutionScore possibleWords usedLetters w)))).take numSuggestions := by
    unfold V1.suggestGuesses
    rw [if_neg (by simpa [List.isEmpty_iff] using h), hmap]
  refine ⟨?_, ?_, hsg, fun s => filter_sortByDesc _ _ _⟩
  · intro p hp
    rw [hsg] at hp
    have hp2 := List.mem_of_mem_take hp
    have hp3 := (perm_sortByDesc Prod.snd _).mem_iff.mp hp2
    rcases List.mem_map.mp hp3 with ⟨w, _, rfl⟩
    rfl
  · rw [hsg]
    exact (pairwise_sortByDesc Prod.snd _).sublist (List.take_sublist _ _)

/-- C6 witness: the score formula and ordering instantiated on a concrete
two-word candidate list. -/
theorem C6_witness :
    ([['a','b'], ['a','c']] : List Word) ≠ []
    ∧ ∀ p ∈ V1.suggestGuesses [['a','b'], ['a','c']] ['a'] 5,
        p.2 = specSolutionScore [['a','b'], ['a','c']] ['a'] p.1 :=
  ⟨by decide, (C6_solution_scores [['a','b'], ['a','c']] ['a'] 5 (by decide)).1⟩

/-! ## The dual-strategy ranker of src/unnamed/part_001 -/

/-- Scored suggestion record of src/unnamed/part_001: a word, its numeric
score and the strategy tag (the source's type field). -/
structure Scored where
  word : Word
  score : ℝ
  type : String

/-- Return shape of suggestGuesses in src/unnamed/part_001. -/
structure Suggestions where
  solutionGuesses : List Scored
  informationGuesses : List Scored

/-- Letter-frequency record of calculateLetterFrequency: total word count,
per-position occurrence counts, and the weighted total (filled in once
position weights have been applied; 0 before). -/
structure FreqEntry where
  total : Nat
  positions : List Nat
  weightedTotal : Nat

/-- Per-word position increments for one letter (the source's inner loop
over the word's indices; positions and the word both have the session's
word length). -/
def addPositions (w : Word) (c : Char) (positions : List Nat) : List Nat :=
  List.zipWith (fun p ch => if ch = c then p + 1 else p) positions w

/-- One unique-letter contribution of one word to the frequency map. -/
def touchFreq (wordLength : Nat) (w : Word) (c : Char) :
    List (Char × FreqEntry) → List (Char × FreqEntry)
  | [] => [(c, ⟨1, addPositions w c (List.replicate wordLength 0), 0⟩)]
  | (d, e) :: f =>
    if d = c then (d, ⟨e.total + 1, addPositions w c e.positions, e.weightedTotal⟩) :: f
    else (d, e) :: touchFreq wordLength w c f

/-- Weighted positional total: a zero weight is falsy in JS and falls back
to 1 through the source's short-circuit or. -/
def weightedSum (positions ws : List Nat) : Nat :=
  (List.zipWith (fun p wt => p * (if wt = 0 then 1 else wt)) positions ws).sum

/-- calculateLetterFrequency of src/unnamed/part_001. -/
def calculateLetterFrequency (wordLength : Nat) (words : List Word)
    (positionWeights : Option (List Nat)) : List (Char × FreqEntry) :=
  let freq := words.foldl
    (fun f w => (jsDedup w).foldl (fun f2 c => touchFreq wordLength w c f2) f) []
  match positionWeights with
  | none => freq
  | some ws =>
    freq.map (fun p => (p.1, ⟨p.2.total, p.2.positions, weightedSum p.2.positions ws⟩))

/-- Reading the frequency object; none when the letter is absent (the
source tests presence with a truthiness check). -/
def lookupFreq (f : List (Char × FreqEntry)) (c : Char) : Option FreqEntry :=
  (f.find? (fun p => decide (p.1 = c))).map Prod.snd

/-- getGreenPositions of src/unnamed/part_001: positions where every
possible word shares the first word's letter. -/
def getGreenPositions (wordLength : Nat) (possibleWords : List Word) :
    List (Nat × Char) :=
  match possibleWords with
  | [] => []
  | w :: ws =>
    (List.range wordLength).filterMap (fun pos =>
      (w.get? pos).bind (fun c =>
        if (w :: ws).all (fun v => decide (v.get? pos = some c)) then some (pos, c)
        else none))

/-- getGreenLetters of src/unnamed/part_001. -/
def getGreenLetters (wordLength : Nat) (possibleWords : List Word) : List Char :=
  jsDedup ((getGreenPositions wordLength possibleWords).map Prod.snd)

/-- getYellowLetters of src/unnamed/part_001: letters occurring at some
position in some but not all possible words. -/
def getYellowLetters (wordLength : Nat) (possibleWords : List Word) : List Char :=
  if possibleWords.isEmpty then []
  else
    ((List.range wordLength).map (fun pos =>
      (jsDedup (possibleWords.filterMap (fun w => w.get? pos))).filter (fun c =>
        ! possibleWords.all (fun w => decide (w.get? pos = some c))))).flatten

/-- The known-letter set of scoreInformationWords: greens and yellows. -/
def knownLetters (wordLength : Nat) (possibleWords : List Word) : List Char :=
  jsDedup (getGreenLetters wordLength possibleWords
    ++ getYellowLetters wordLength possibleWords)

/-- discoveryLetters of scoreInformationWords: the word's unique letters
that are neither used nor known. -/
def discoveryLetters (usedLetters known : List Char) (w : Word) : List Char :=
  (jsDedup w).filter (fun c => decide (c ∉ usedLetters) && decide (c ∉ known))

/-- getCommonLetters of src/unnamed/part_001: letters appearing in at least
a fifth of the words (the source compares the count against
words.length times 0.2; the comparison is modelled exactly as a rational
threshold). -/
def getCommonLetters (words : List Word) : List Char :=
  (jsDedup (words.map jsDedup).flatten).filter (fun c =>
    decide (words.length ≤ 5 * words.countP (fun w => decide (c ∈ w))))

/-- selectInformationGuessCandidates of src/unnamed/part_001: all words for
a small candidate set, otherwise the candidate set plus every dictionary
word holding at least 3 unused common letters (the JS Set accumulation is
the first-occurrence de-duplication of that concatenation). -/
def selectInformationGuessCandidates (allWordList possibleWords : List Word)
    (usedLetters : List Char) : List Word :=
  if possibleWords.length < 100 then allWordList
  else
    jsDedup (possibleWords ++ allWordList.filter (fun w =>
      decide (3 ≤ ((jsDedup w).filter (fun c =>
        decide (c ∉ usedLetters)
          && decide (c ∈ getCommonLetters possibleWords))).length)))

/-- scoreWords of src/unnamed/part_001: solution-guess scoring with the
weights uniqueLetters = 10 and letterFrequency = 1. -/
noncomputable def scoreWords (words : List Word) (usedLetters : List Char)
    (letterFrequency : List (Char × FreqEntry)) : List Scored :=
  sortByDesc Scored.score (words.map (fun word =>
    { word := word
      score := ((((jsDedup word).filter (fun c => decide (c ∉ usedLetters))).length * 10
          + ((jsDedup word).map (fun c =>
              ((lookupFreq letterFrequency c).map FreqEntry.total).getD 0 * 1)).sum : Nat) : ℝ)
      type := "solution" }))

/-- The per-word score of scoreInformationWords in src/unnamed/part_001:
for a first guess the partition score alone (times the informationGain
weight 15); otherwise 0 for a word with no discovery letters, else the
weighted partition score plus the halved weighted-frequency bonus of the
discovery letters, damped 0.3-fold per reused known letter and 0.1-fold
per letter placed on a known green position. -/
noncomputable def infoScore (wordLength : Nat) (usedLetters : List Char)
    (letterFrequency : List (Char × FreqEntry)) (possibleWords : List Word)
    (isFirstGuess : Bool) (w : Word) : ℝ :=
  if isFirstGuess then calculatePartitionScore w possibleWords * 15
  else
    let known := knownLetters wordLength possibleWords
    let discovery := discoveryLetters usedLetters known w
    if discovery.isEmpty then 0
    else
      let base := calculatePartitionScore w possibleWords * 15
        + (discovery.map (fun c =>
            (((lookupFreq letterFrequency c).map FreqEntry.weightedTotal).getD 0 : ℝ)
              * 1 * 0.5)).sum
      let knownUsed := ((jsDedup w).filter (fun c => decide (c ∈ known))).length
      let afterKnown := if 0 < knownUsed then base * (0.3 : ℝ) ^ knownUsed else base
      afterKnown * (0.1 : ℝ) ^ (((getGreenPositions wordLength possibleWords).filter
          (fun p => decide (w.get? p.1 = some p.2))).length)

/-- scoreInformationWords of src/unnamed/part_001: score every candidate
word, drop the entries that are not strictly positive, sort descending.
The source receives positionWeights but does not read it (the weighted
totals already live in letterFrequency). -/
noncomputable def scoreInformationWords (wordLength : Nat) (words : List Word)
    (usedLetters : List Char) (letterFrequency : List (Char × FreqEntry))
    (possibleWords : List Word) (positionWeights : List Nat) (isFirstGuess : Bool) :
    List Scored :=
  sortByDesc Scored.score
    ((words.map (fun w =>
      { word := w
        score := infoScore wordLength usedLetters letterFrequency possibleWords
          isFirstGuess w
        type := "information" })).filter (fun s => decide (0 < s.score)))

/-- getInitialGuesses of src/unnamed/part_001: hardcoded openers for
5-letter sessions, otherwise a quick frequency scoring of the word list. -/
noncomputable def getInitialGuesses (wordLength : Nat) (wordList : List Word) :
    Suggestions :=
  if wordLength = 5 then
    { solutionGuesses :=
        [⟨['s','t','a','r','e'], 100, "solution"⟩, ⟨['c','r','a','n','e'], 98, "solution"⟩,
         ⟨['t','r','a','c','e'], 98, "solution"⟩, ⟨['s','l','a','t','e'], 97, "solution"⟩,
         ⟨['c','r','a','t','e'], 97, "solution"⟩]
      informationGuesses :=
        [⟨['s','t','a','r','e'], 100, "information"⟩, ⟨['c','r','a','n','e'], 98, "information"⟩,
         ⟨['t','r','a','c','e'], 98, "information"⟩, ⟨['s','l','a','t','e'], 97, "information"⟩,
         ⟨['c','r','a','t','e'], 97, "information"⟩] }
  else
    let letterFreq := calculateLetterFrequency wordLength wordList none
    let quickScores := (sortByDesc Scored.score (wordList.map (fun word =>
      { word := word
        score := (((jsDedup word).length * 10
            + ((jsDedup word).map (fun c =>
                ((lookupFreq letterFreq c).map FreqEntry.total).getD 0 * 1)).sum : Nat) : ℝ)
        type := "solution" }))).take 5
    { solutionGuesses := quickScores, informationGuesses := quickScores }

/-- suggestGuesses of src/unnamed/part_001: precomputed suggestions for the
first guess, empty lists for an empty candidate set, otherwise solution
scoring plus (for at least two candidates) information scoring, each
truncated to numSuggestions entries. -/
noncomputable def suggestGuesses (wordLength : Nat) (wordList allWordList : List Word)
    (possibleWords : List Word) (usedLetters : List Char) (numSuggestions : Nat) :
    Suggestions :=
  if usedLetters.isEmpty then getInitialGuesses wordLength wordList
  else if possibleWords.isEmpty then { solutionGuesses := [], informationGuesses := [] }
  else
    let solutionScores := scoreWords possibleWords usedLetters
      (calculateLetterFrequency wordLength possibleWords none)
    let informationScores :=
      if 2 ≤ possibleWords.length then
        let positionWeights := (List.range wordLength).map (fun i =>
          if (getGreenPositions wordLength possibleWords).any (fun p => decide (p.1 = i))
          then 0 else 1)
        scoreInformationWords wordLength
          (selectInformationGuessCandidates allWordList possibleWords usedLetters)
          usedLetters
          (calculateLetterFrequency wordLength possibleWords (some positionWeights))
          possibleWords positionWeights false
      else []
    { solutionGuesses := solutionScores.take numSuggestions
      informationGuesses := informationScores.take numSuggestions }

/-- C3 counterexample: with an empty used-letter list the ranker ignores the
empty candidate list and returns the precomputed initial guesses, which are
not empty suggestion lists. -/
theorem C3_counterexample :
    (suggestGuesses 5 [['a','b','c','d','e']] [['a','b','c','d','e']] [] [] 5).solutionGuesses
        ≠ []
    ∧ (suggestGuesses 5 [['a','b','c','d','e']] [['a','b','c','d','e']] [] [] 5).informationGuesses
        ≠ [] := by
  constructor <;> simp [suggestGuesses, getInitialGuesses]

/-- C3 (amended): for every non-empty usedLetters input the ranker returns
empty suggestion lists for both strategies on an empty candidate list and
raises no error; with an empty usedLetters list the first-guess fast path
returns the precomputed initial guesses instead. -/
theorem C3_amended_empty (wordLength : Nat) (wordList allWordList : List Word)
    (usedLetters : List Char) (numSuggestions : Nat) (h : usedLetters ≠ []) :
    suggestGuesses wordLength wordList allWordList [] usedLetters numSuggestions
      = { solutionGuesses := [], informationGuesses := [] } := by
  unfold suggestGuesses
  rw [if_neg (by simpa [List.isEmpty_iff] using h), if_pos (by simp)]

/-- C3 witness: the amended statement at a concrete non-empty used-letter
list. -/
theorem C3_witness :
    (['a'] : List Char) ≠ []
    ∧ suggestGuesses 5 [] [] [] ['a'] 5
        = { solutionGuesses := [], informationGuesses := [] } :=
  ⟨by decide, C3_amended_empty 5 [] [] ['a'] 5 (by decide)⟩

/-- C7: in a non-first-guess information-scoring pass, every candidate word
whose unique letters are all already used or already known scores 0 and is
absent from the ranked output, and every word of the ranked output carries
at least one letter that is neither used nor known. -/
theorem C7_information_discovery (wordLength : Nat) (words : List Word)
    (usedLetters : List Char) (letterFrequency : List (Char × FreqEntry))
    (possibleWords : List Word) (positionWeights : List Nat) :
    (∀ w ∈ words,
        discoveryLetters usedLetters (knownLetters wordLength possibleWords) w = [] →
        infoScore wordLength usedLetters letterFrequency possibleWords false w = 0
        ∧ ∀ p ∈ scoreInformationWords wordLength words usedLetters letterFrequency
              possibleWords positionWeights false, p.word ≠ w)
    ∧ (∀ p ∈ scoreInformationWords wordLength words usedLetters letterFrequency
          possibleWords positionWeights false,
        ∃ c, c ∈ jsDedup p.word ∧ c ∉ usedLetters
          ∧ c ∉ knownLetters wordLength possibleWords) := by
  have hzero : ∀ w,
      discoveryLetters usedLetters (knownLetters wordLength possibleWords) w = [] →
      infoScore wordLength usedLetters letterFrequency possibleWords false w = 0 := by
    intro w hdisc
    simp [infoScore, hdisc]
  have hmem : ∀ p, p ∈ scoreInformationWords wordLength words usedLetters letterFrequency
        possibleWords positionWeights false →
      ∃ w, w ∈ words
        ∧ p.word = w
        ∧ 0 < infoScore wordLength usedLetters letterFrequency possibleWords false w := by
    intro p hp
    rw [scoreInformationWords] at hp
    have hp2 := (perm_sortByDesc Scored.score _).mem_iff.mp hp
    rcases List.mem_filter.mp hp2 with ⟨hp3, hp4⟩
    rcases List.mem_map.mp hp3 with ⟨w, hw, rfl⟩
    exact ⟨w, hw, rfl, by simpa using of_decide_eq_true hp4⟩
  constructor
  · intro w hw hdisc
    refine ⟨hzero w hdisc, ?_⟩
    intro p hp hpw
    rcases hmem p hp with ⟨v, _, hpv, hpos⟩
    have hv : v = w := hpv.symm.trans hpw
    rw [hv, hzero w hdisc] at hpos
    exact lt_irrefl 0 hpos
  · intro p hp
    rcases hmem p hp with ⟨v, _, hpv, hpos⟩
    by_contra hnone
    push_neg at hnone
    have hdisc : discoveryLetters usedLetters (knownLetters wordLength possibleWords) v
        = [] := by
      rw [discoveryLetters, List.filter_eq_nil_iff]
      intro c hc
      have himp := hnone c (by rw [hpv]; exact hc)
      by_cases hu : c ∈ usedLetters
      · simp [hu]
      · simp [himp hu]
    rw [hzero v hdisc] at hpos
    exact lt_irrefl 0 hpos

/-- C7 witness: a word made only of known letters scores 0. -/
theorem C7_witness :
    ['a'] ∈ ([['a']] : List Word)
    ∧ discoveryLetters ['a'] (knownLetters 1 [['a']]) ['a'] = []
    ∧ infoScore 1 ['a'] [] [['a']] false ['a'] = 0 :=
  ⟨by decide, by decide,
    ((C7_information_discovery 1 [['a']] ['a'] [] [['a']] []).1 ['a']
      (by decide) (by decide)).1⟩

/-! ## Session construction (WordleSolver constructor, src/wordleSolver.js) -/

structure WordleSolver where
  wordLength : Nat
  wordList : List Word

/-- Lookup of the per-length word-list map (wordLists.get). -/
def lookupWordList (wordLists : List (Nat × List Word)) (len : Nat) :
    Option (List Word) :=
  (wordLists.find? (fun p => decide (p.1 = len))).map Prod.snd

/-- The WordleSolver constructor: the word list defaults to empty when the
length is missing from the dictionary map, and construction throws when
the resulting list is empty. -/
def mkWordleSolver (wordLists : List (Nat × List Word)) (len : Nat) :
    Except String WordleSolver :=
  if ((lookupWordList wordLists len).getD []).length = 0 then
    Except.error ("No " ++ toString len ++ "-letter words found in dictionary")
  else Except.ok { wordLength := len, wordList := (lookupWordList wordLists len).getD [] }

/-- C9: construction fails exactly when the dictionary supplies no words of
the requested length, and a successful construction carries the non-empty
dictionary list for that length, so an empty session list is never
produced silently. -/
theorem C9_constructor (wordLists : List (Nat × List Word)) (len : Nat) :
    ((∃ e, mkWordleSolver wordLists len = Except.error e)
        ↔ (lookupWordList wordLists len).getD [] = [])
    ∧ (∀ s, mkWordleSolver wordLists len = Except.ok s →
        s.wordList = (lookupWordList wordLists len).getD [] ∧ s.wordList ≠ []) := by
  unfold mkWordleSolver
  by_cases h : ((lookupWordList wordLists len).getD []).length = 0
  · rw [if_pos h]
    refine ⟨⟨fun _ => List.length_eq_zero.mp h, fun _ => ⟨_, rfl⟩⟩, ?_⟩
    intro s hs
    exact Except.noConfusion hs
  · rw [if_neg h]
    refine ⟨⟨?_, ?_⟩, ?_⟩
    · rintro ⟨e, he⟩
      exact Except.noConfusion he
    · intro hnil
      exact absurd (by rw [hnil]; rfl) h
    · intro s hs
      cases Except.ok.inj hs
      refine ⟨rfl, fun hnil => h ?_⟩
      simpa using congrArg List.length hnil

/-- C9 witness: a dictionary holding one 5-letter word constructs a session
with that non-empty list. -/
theorem C9_witness :
    (({ wordLength := 5, wordList := [['s','t','a','r','e']] } : WordleSolver).wordList
        = (lookupWordList [(5, [['s','t','a','r','e']])] 5).getD [])
    ∧ ({ wordLength := 5, wordList := [['s','t','a','r','e']] } : WordleSolver).wordList
        ≠ [] :=
  (C9_constructor [(5, [['s','t','a','r','e']])] 5).2
    { wordLength := 5, wordList := [['s','t','a','r','e']] } (by rfl)

end WordleSolverCli
